import Mathlib

/-!
Verification of the gpsmap track-to-frame pipeline.

Shallow embedding of the core data model and operations of the repository:
the GPX track model (gpx.h / gpx.cpp), the tile cache (tilemanager.h /
tilemanager.cpp), the zoom-level switcher (gpsmap/mapgen.h / mapgen.cpp) and
the video-segment scheduler (utils.h / utils.cpp).

Modelling conventions:
* C++ `double` fields that only ever go through exact arithmetic
  (+, -, *, /) and comparisons are modelled as `ℚ`; quantities produced by
  transcendental functions (haversine distance, forward azimuth) are
  modelled as `ℝ`.
* Fallible functions returning a null pointer are modelled with `Option`.
* In-place mutation of a `std::vector` is modelled by structural recursion
  that returns the updated list, threading the already-updated prefix
  exactly the way the C++ loops read it.
-/

namespace GpsMap

/-- One GPX track point, from `src/include/gpsmap/gpx.h` (`struct TrackItem`).
Field defaults mirror the in-class initializers. -/
structure TrackItem where
  Valid : Bool := true
  OriginalTimestamp : String := ""
  Timestamp : ℚ := 0
  Latitude : ℚ := 0
  Longitude : ℚ := 0
  Speed : ℚ := 0
  Elevation : ℚ := 0
  DistanceDelta : ℝ := 0
  TotalDistance : ℝ := 0
  Bearing : ℝ := 0
  IsTrackStart : Bool := false
  IsSegmentStart : Bool := false
  MapIndex : ℕ := 0

instance : Inhabited TrackItem := ⟨{}⟩

/-- Timestamp of the item at index `i`, with the default item out of range. -/
def tsAt (items : List TrackItem) (i : ℕ) : ℚ :=
  (items.getD i default).Timestamp

/-- The scan loop of `GPXSegment::GetClosestItem` (`src/src/gpx.cpp`):
`for (auto i = nextItem; i + 1 < m_items.size(); ++i)` returning the first
`i` with `items[i].Timestamp <= t < items[i+1].Timestamp`.  The loop walks
the suffix of the item vector that starts at the running index `i`. -/
def getClosestLoop (t : ℚ) : ℕ → List TrackItem → Option ℕ
  | i, a :: b :: rest =>
    if a.Timestamp ≤ t ∧ t < b.Timestamp then some i
    else getClosestLoop t (i + 1) (b :: rest)
  | _, _ => none

/-- `GPXSegment::GetClosestItem` (`src/src/gpx.cpp`, lines 212-233).
`some i` models `return true` with `nextItem = i` and `item = m_items[i]`;
`none` models `return false` (the cursor is then left unchanged). -/
def GetClosestItem (items : List TrackItem) (t : ℚ) (nextItem : ℕ) :
    Option ℕ :=
  if items.length ≤ nextItem then none
  else if t < tsAt items nextItem then none
  else getClosestLoop t nextItem (items.drop nextItem)

lemma getD_drop (l : List TrackItem) (d : TrackItem) :
    ∀ c k, (l.drop c).getD k d = l.getD (c + k) d := by
  induction l with
  | nil => intro c k; simp
  | cons x xs ih =>
    intro c k
    cases c with
    | zero => simp
    | succ c =>
      have h2 : c + 1 + k = (c + k) + 1 := by omega
      rw [List.drop_succ_cons, h2, List.getD_cons_succ]
      exact ih c k

lemma getClosestLoop_sound (t : ℚ) :
    ∀ (l : List TrackItem) i j, getClosestLoop t i l = some j →
      i ≤ j ∧ j - i + 1 < l.length ∧
      (l.getD (j - i) default).Timestamp ≤ t ∧
      t < (l.getD (j - i + 1) default).Timestamp := by
  intro l
  induction l with
  | nil => intro i j h; exact absurd h (by simp [getClosestLoop])
  | cons a l ih =>
    intro i j h
    match l, h with
    | b :: rest, h =>
      rw [getClosestLoop] at h
      split at h
      · rename_i hts
        obtain rfl : i = j := Option.some_injective _ h
        simpa using hts
      · obtain ⟨hij, hlen, h1, h2⟩ := ih (i + 1) j h
        have hd : j - i = (j - (i + 1)) + 1 := by omega
        refine ⟨by omega, by simpa [hd] using hlen, ?_, ?_⟩
        · simpa [hd] using h1
        · simpa [hd] using h2

/-- Claim C3: for every segment and timestamp, `GetClosestItem` only succeeds
with an index `i` satisfying `point[i].timestamp <= t < point[i+1].timestamp`
that is at or after the incoming cursor (the cursor, updated to `i` on
success and left unchanged on failure, never moves backward), and it fails
when the cursor is past the end or `t` precedes the cursor's current point. -/
theorem GetClosestItem_spec (items : List TrackItem) (t : ℚ) (c : ℕ) :
    (∀ i, GetClosestItem items t c = some i →
        c ≤ i ∧ i + 1 < items.length ∧
        tsAt items i ≤ t ∧ t < tsAt items (i + 1)) ∧
    (items.length ≤ c → GetClosestItem items t c = none) ∧
    (t < tsAt items c → GetClosestItem items t c = none) := by
  refine ⟨?_, ?_, ?_⟩
  · intro i h
    rw [GetClosestItem] at h
    split at h
    · exact absurd h (by simp)
    · split at h
      · exact absurd h (by simp)
      · obtain ⟨hci, hlen, h1, h2⟩ := getClosestLoop_sound t (items.drop c) c i h
        have e1 : c + (i - c) = i := by omega
        have e2 : c + (i - c + 1) = i + 1 := by omega
        rw [getD_drop, e1] at h1
        rw [getD_drop, e2] at h2
        rw [List.length_drop] at hlen
        exact ⟨hci, by omega, h1, h2⟩
  · intro hc
    rw [GetClosestItem]
    simp [hc]
  · intro ht
    rw [GetClosestItem]
    split
    · rfl
    · simp [ht]

/-- Witness for C3 at a concrete segment: on the three-point segment with
timestamps 0, 10, 20 and query `t = 12` from cursor 0, the call succeeds with
index 1, which satisfies the bracketing property and does not move the cursor
backward. -/
theorem GetClosestItem_spec_witness :
    let items := [{ Timestamp := 0 : TrackItem }, { Timestamp := 10 : TrackItem },
      { Timestamp := 20 : TrackItem }]
    0 ≤ 1 ∧ 1 + 1 < items.length ∧
      tsAt items 1 ≤ 12 ∧ (12 : ℚ) < tsAt items (1 + 1) :=
  (GetClosestItem_spec _ 12 0).1 1 (by decide)

/-! ## Idle splitting (`GPXSegment::SplitIdleSegments`, `src/src/gpx.cpp` 156-201) -/

/-- The idle epsilon from `src/src/gpx.cpp`: `auto epsilon = 0.00000001;`. -/
def epsilon : ℚ := 1 / 100000000

/-- `fabs` on the exact-rational model of `double`. -/
def fabsQ (q : ℚ) : ℚ := if q < 0 then -q else q

/-- The first scan of `SplitIdleSegments`: `idle[i]` is true iff both the
latitude and the longitude deltas to the predecessor are below `epsilon`. -/
def idleGo (prev : TrackItem) : List TrackItem → List Bool
  | [] => []
  | item :: rest =>
    (if fabsQ (item.Latitude - prev.Latitude) < epsilon ∧
        fabsQ (item.Longitude - prev.Longitude) < epsilon then true else false) ::
      idleGo item rest

/-- The idle-flag vector: `idle[0] = false`, then one flag per point. -/
def idleFlags : List TrackItem → List Bool
  | [] => []
  | x :: rest => false :: idleGo x rest

/-- `GPXSegment::Extract` (`src/include/gpsmap/gpx.h`): returns the slice
`[start, e)` of the item vector, or `none` (null pointer) when the bounds are
invalid. -/
def Extract (items : List TrackItem) (start e : ℕ) : Option (List TrackItem) :=
  if items.length ≤ start ∨ items.length < e ∨ e < start then none
  else some ((items.drop start).take (e - start))

/-- The second loop of `SplitIdleSegments`: walks the idle flags from index
`i` (the list argument is the suffix `idle[i..]`), emitting
`Extract(start, last ? i+1 : i)` whenever the state changes or the last index
is reached.  `assert(seg)` in the source is modelled by `getD []` (the proofs
show the extraction always succeeds on the paths taken). -/
def splitLoop (items : List TrackItem) (n : ℕ) :
    ℕ → ℕ → Bool → List Bool → List (List TrackItem)
  | i, start, curstate, f :: fs =>
    if f ≠ curstate ∨ i = n - 1 then
      (Extract items start (if i = n - 1 then i + 1 else i)).getD [] ::
        splitLoop items n (i + 1) i f fs
    else splitLoop items n (i + 1) start curstate fs
  | _, _, _, [] => []

/-- `GPXSegment::SplitIdleSegments` (`src/src/gpx.cpp`, lines 156-201). -/
def SplitIdleSegments (items : List TrackItem) : List (List TrackItem) :=
  if items.length < 1 then []
  else splitLoop items items.length 0 0 ((idleFlags items).headD false)
    (idleFlags items)

lemma splitLoop_join (items : List TrackItem) :
    ∀ (fs : List Bool) (i start : ℕ) (cur : Bool),
      i + fs.length = items.length → i < items.length → start ≤ i →
      (splitLoop items items.length i start cur fs).flatten = items.drop start := by
  intro fs
  induction fs with
  | nil => intro i start cur hlen hi _; simp at hlen; omega
  | cons f fs ih =>
    intro i start cur hlen hi hstart
    by_cases hlast : i = items.length - 1
    · have hfs : fs = [] := by
        cases fs with
        | nil => rfl
        | cons g gs =>
          exfalso
          simp only [List.length_cons] at hlen
          omega
      subst hfs
      rw [splitLoop]
      have hcond : (f ≠ cur ∨ i = items.length - 1) := Or.inr hlast
      rw [if_pos hcond, if_pos hlast]
      have hi1 : i + 1 = items.length := by simp at hlen; omega
      rw [Extract, if_neg (by omega)]
      simp only [splitLoop, Option.getD_some, List.flatten]
      have : (items.drop start).take (i + 1 - start) = items.drop start := by
        apply List.take_of_length_le
        rw [List.length_drop]
        omega
      simp [this]
    · rw [splitLoop]
      by_cases hnew : f ≠ cur
      · rw [if_pos (Or.inl hnew), if_neg hlast]
        rw [Extract, if_neg (by omega)]
        simp only [Option.getD_some, List.flatten_cons]
        rw [ih (i + 1) i f (by simp at hlen ⊢; omega) (by omega) (by omega)]
        have hdd : items.drop i = (items.drop start).drop (i - start) := by
          rw [List.drop_drop]
          have hiss : start + (i - start) = i := by omega
          rw [hiss]
        rw [hdd, List.take_append_drop]
      · rw [if_neg (by push_neg; exact ⟨not_not.mp hnew, hlast⟩)]
        exact ih (i + 1) start cur (by simp at hlen ⊢; omega) (by omega) (by omega)

lemma idleFlags_length (items : List TrackItem) :
    (idleFlags items).length = items.length := by
  cases items with
  | nil => rfl
  | cons x rest =>
    simp only [idleFlags, List.length_cons]
    congr 1
    induction rest generalizing x with
    | nil => rfl
    | cons y ys ih => simp only [idleGo, List.length_cons]; rw [ih y]

/-- Claim C4, amended: `SplitIdleSegments` is lossless — the produced
sub-segments concatenate, in order, to the input segment, so the sum of the
point counts equals the input point count.  (The sub-segments are however not
always maximal runs of constant idle state: a state change at the very last
point is merged into the final sub-segment, see
`SplitIdleSegments_not_runs`.) -/
theorem SplitIdleSegments_lossless (items : List TrackItem)
    (h : 0 < items.length) :
    (SplitIdleSegments items).flatten = items ∧
    ((SplitIdleSegments items).map List.length).sum = items.length := by
  have hjoin : (SplitIdleSegments items).flatten = items := by
    rw [SplitIdleSegments, if_neg (by omega)]
    rw [splitLoop_join items (idleFlags items) 0 0 _ (by simp [idleFlags_length]) h
      (le_refl 0)]
    simp
  refine ⟨hjoin, ?_⟩
  rw [← List.length_flatten, hjoin]

/-- Witness for C4 at a concrete segment: a two-point segment whose second
point repeats the first position splits losslessly. -/
theorem SplitIdleSegments_lossless_witness :
    let items := [{ Timestamp := 0 : TrackItem }, { Timestamp := 1 : TrackItem }]
    (SplitIdleSegments items).flatten = items ∧
    ((SplitIdleSegments items).map List.length).sum = items.length :=
  SplitIdleSegments_lossless _ (by decide)

/-- The maximal runs of equal values in a list, following the wording of the
specification (modelled from the spec, for comparison only): the lengths of
the maximal runs of alternating idle/non-idle state. -/
def runLengthsSpec : List Bool → List ℕ
  | [] => []
  | b :: bs => runsGo b 1 bs
where
  runsGo (cur : Bool) (count : ℕ) : List Bool → List ℕ
    | [] => [count]
    | b :: bs => if b = cur then runsGo cur (count + 1) bs else count :: runsGo b 1 bs

/-- Counterexample for claim C4 as stated: on a two-point segment whose
second point is idle (identical position), the idle-state runs are `[1, 1]`
(a non-idle run then an idle run), but the code produces a single sub-segment
of length 2 — the produced sub-segments are not maximal runs of alternating
idle/non-idle state. -/
theorem SplitIdleSegments_not_runs :
    let items := [{ Timestamp := 0 : TrackItem }, { Timestamp := 1 : TrackItem }]
    (SplitIdleSegments items).map List.length = [2] ∧
    runLengthsSpec (idleFlags items) = [1, 1] ∧
    ([2] : List ℕ) ≠ [1, 1] := by
  refine ⟨?_, ?_, by decide⟩
  · norm_num [SplitIdleSegments, splitLoop, idleFlags, idleGo, fabsQ, epsilon,
      Extract]
  · norm_num [runLengthsSpec, runLengthsSpec.runsGo, idleFlags, idleGo, fabsQ,
      epsilon]

/-! ## Interpolation (`GPXSegment::Interpolate`, `src/src/gpx.cpp` 261-306) -/

/-- `angle_distance` from `src/src/gpx.cpp`: signed shorter-path angular
difference.  `fmod(x, 360)` is modelled floor-based, which coincides with the
C `fmod` on the nonnegative argument `abs(a2 - a1)` used here. -/
noncomputable def angle_distance (a1 a2 : ℝ) : ℝ :=
  let x := |a2 - a1|
  let phi := x - 360 * ⌊x / 360⌋
  let sign : ℝ :=
    if (a1 - a2 ≥ 0 ∧ a1 - a2 ≤ 180) ∨ (a1 - a2 ≤ -180 ∧ a1 - a2 ≥ -360) then 1
    else -1
  let result := if phi > 180 then 360 - phi else phi
  result * sign

/-- The items generated for one consecutive pair `(a, b)` by the inner `for
(auto t = 0; t < frames; ++t)` loop of `Interpolate`: the `int` counter `t`
takes the values `0 .. ceil(frames) - 1` when `frames > 0`.  `isFirst` is the
value of the `isFirst` flag when the pair is reached; it is true for at most
the first generated item of the whole run. -/
noncomputable def interpPair (a b : TrackItem) (frequency : ℚ) (isFirst : Bool) :
    List TrackItem :=
  let td := b.Timestamp - a.Timestamp
  let frames := td * frequency
  (List.range ⌈frames⌉.toNat).map fun t =>
    { Timestamp := a.Timestamp + td / frames * t
      Latitude := a.Latitude + (b.Latitude - a.Latitude) / frames * t
      Longitude := a.Longitude + (b.Longitude - a.Longitude) / frames * t
      Speed := a.Speed + (b.Speed - a.Speed) / frames * t
      Elevation := a.Elevation + (b.Elevation - a.Elevation) / frames * t
      Bearing := a.Bearing + angle_distance b.Bearing a.Bearing / (frames : ℝ) * t
      IsTrackStart := a.IsTrackStart && (isFirst && t == 0)
      IsSegmentStart := a.IsSegmentStart && (isFirst && t == 0) }

/-- The outer `while (i < m_items.size() - 1)` loop of `Interpolate`, walking
consecutive pairs.  Returns `none` (the `return nullptr`) as soon as a pair
has a zero timestamp difference. -/
noncomputable def interpLoop (frequency : ℚ) : Bool → List TrackItem →
    Option (List TrackItem)
  | isFirst, a :: b :: rest =>
    let td := b.Timestamp - a.Timestamp
    if td = 0 then none
    else
      let n := (⌈td * frequency⌉).toNat
      match interpLoop frequency (isFirst && (n == 0)) (b :: rest) with
      | none => none
      | some tail => some (interpPair a b frequency isFirst ++ tail)
  | _, _ => some []

/-- `GPXSegment::Interpolate` (`src/src/gpx.cpp`, lines 261-306).  `none`
models the `nullptr` returns. -/
noncomputable def Interpolate (items : List TrackItem) (frequency : ℚ) :
    Option (List TrackItem) :=
  if items.length < 2 then none
  else interpLoop frequency true items

lemma interpLoop_eq_ts_none (frequency : ℚ) :
    ∀ (l : List TrackItem) (isFirst : Bool) (i : ℕ), i + 1 < l.length →
      (l.getD i default).Timestamp = (l.getD (i + 1) default).Timestamp →
      interpLoop frequency isFirst l = none := by
  intro l
  induction l with
  | nil => intro _ i hi _; simp at hi
  | cons a l ih =>
    intro isFirst i hi hts
    match l, hi with
    | b :: rest, hi =>
      rw [interpLoop]
      cases i with
      | zero =>
        simp only [List.getD_cons_zero, List.getD_cons_succ] at hts
        rw [if_pos (by rw [hts]; ring)]
      | succ i =>
        split
        · rfl
        · have hnone := ih
            (isFirst && ((⌈(b.Timestamp - a.Timestamp) * frequency⌉).toNat == 0))
            i (by simpa using hi) (by simpa using hts)
          simp [hnone]

/-- Claim C5: `Interpolate` fails (returns no segment, and the failure is
propagated rather than recovered) whenever two consecutive original points
share an identical timestamp. -/
theorem Interpolate_dup_ts_fails (items : List TrackItem) (frequency : ℚ)
    (i : ℕ) (hi : i + 1 < items.length)
    (hts : (items.getD i default).Timestamp =
      (items.getD (i + 1) default).Timestamp) :
    Interpolate items frequency = none := by
  rw [Interpolate]
  split
  · rfl
  · exact interpLoop_eq_ts_none frequency items true i hi hts

/-- Witness for C5: a two-point segment whose points share timestamp 5 fails
to interpolate at frequency 1. -/
theorem Interpolate_dup_ts_fails_witness :
    Interpolate [{ Timestamp := 5 : TrackItem }, { Timestamp := 5 : TrackItem }]
      1 = none :=
  Interpolate_dup_ts_fails _ 1 0 (by decide) (by norm_num)

/-! ## Distances (`distance`, `GPXSegment::UpdateDistances`,
`src/src/gpx.cpp` 70-87 and 137-154) -/

/-- `to_rad` from `src/include/gpsmap/gpx.h`. -/
noncomputable def to_rad (deg : ℝ) : ℝ := deg * Real.pi / 180

/-- `to_deg` from `src/include/gpsmap/gpx.h`. -/
noncomputable def to_deg (rad : ℝ) : ℝ := rad * 180 / Real.pi

/-- `distance` from `src/src/gpx.cpp` (lines 70-87): haversine distance in
meters, Earth radius 6 371 000 m. -/
noncomputable def distance (lat1 lon1 lat2 lon2 : ℝ) : ℝ :=
  let R : ℝ := 6371 * 1000
  let lat1r := to_rad lat1
  let lon1r := to_rad lon1
  let lat2r := to_rad lat2
  let lon2r := to_rad lon2
  let dlon := lon2r - lon1r
  let dlat := lat2r - lat1r
  let ans := Real.sin (dlat / 2) ^ 2 +
    Real.cos lat1r * Real.cos lat2r * Real.sin (dlon / 2) ^ 2
  R * 2 * Real.arcsin (Real.sqrt ans)

lemma distance_nonneg (lat1 lon1 lat2 lon2 : ℝ) :
    0 ≤ distance lat1 lon1 lat2 lon2 := by
  rw [distance]
  exact mul_nonneg (by norm_num) (Real.arcsin_nonneg.mpr (Real.sqrt_nonneg _))

/-- `distance` applied to the coordinates of two track items, as in the body
of `UpdateDistances`. -/
noncomputable def distanceI (a b : TrackItem) : ℝ :=
  distance (a.Latitude : ℝ) (a.Longitude : ℝ) (b.Latitude : ℝ) (b.Longitude : ℝ)

/-- The `for (size_t i = 1; ...)` pass of `UpdateDistances`: `prev` is the
already-updated predecessor item `ti0`; each item gets its `DistanceDelta`
and cumulative `TotalDistance` from the updated predecessor. -/
noncomputable def distGo (prev : TrackItem) : List TrackItem → List TrackItem
  | [] => []
  | y :: rest =>
    let δ := distanceI prev y
    let y2 := { y with DistanceDelta := δ, TotalDistance := prev.TotalDistance + δ }
    y2 :: distGo y2 rest

/-- `GPXSegment::UpdateDistances` (`src/src/gpx.cpp`, lines 137-154).
`std::sort` with the `Timestamp <` comparator is modelled by `mergeSort` on
`Timestamp ≤` — both produce a permutation that is non-decreasing in
`Timestamp`.  Note the seeding of the first item with `m_initialDistance`
happens inside the loop body at `i == 1`, so it is skipped for single-item
segments. -/
noncomputable def UpdateDistances (initialDistance : ℝ)
    (items : List TrackItem) : List TrackItem :=
  if items.length < 1 then items
  else
    match items.mergeSort (fun a b => a.Timestamp ≤ b.Timestamp) with
    | [] => []
    | [x] => [x]
    | x :: y :: rest =>
      let x2 := { x with TotalDistance := initialDistance }
      x2 :: distGo x2 (y :: rest)

lemma distGo_chain (rest : List TrackItem) :
    ∀ prev, List.Chain' (· ≤ ·)
      ((prev :: distGo prev rest).map TrackItem.TotalDistance) := by
  induction rest with
  | nil => intro prev; simp [distGo]
  | cons y ys ih =>
    intro prev
    rw [distGo]
    simp only [List.map_cons, List.chain'_cons]
    constructor
    · exact le_add_of_nonneg_right (distance_nonneg _ _ _ _)
    · simpa using ih { y with DistanceDelta := distanceI prev y, TotalDistance := prev.TotalDistance + distanceI prev y }

/-- Claim C6, amended: after `UpdateDistances` the cumulative total-distance
sequence read along the segment is non-decreasing, and for segments with at
least two points the first point's cumulative distance equals the inherited
`initialDistance`.  (A single-point segment keeps its previously stored
cumulative distance: the seeding happens inside the pass over indices `i >= 1`,
see `UpdateDistances_single_not_seeded`.) -/
theorem UpdateDistances_spec (initialDistance : ℝ) (items : List TrackItem) :
    List.Chain' (· ≤ ·)
      ((UpdateDistances initialDistance items).map TrackItem.TotalDistance) ∧
    (2 ≤ items.length →
      ((UpdateDistances initialDistance items).headD default).TotalDistance =
        initialDistance) := by
  rw [UpdateDistances]
  split
  · rename_i hlen
    have : items = [] := by
      cases items with
      | nil => rfl
      | cons a l => simp at hlen
    subst this
    exact ⟨by simp, by intro h; simp at h⟩
  · rename_i hlen
    have hperm := items.mergeSort_perm (fun a b => a.Timestamp ≤ b.Timestamp)
    have hlen2 : (items.mergeSort (fun a b => a.Timestamp ≤ b.Timestamp)).length
        = items.length := hperm.length_eq
    split
    · rename_i heq
      rw [heq] at hlen2
      simp at hlen2
      exact ⟨by simp, by intro h; omega⟩
    · rename_i x heq
      rw [heq] at hlen2
      exact ⟨by simp, by intro h; simp at hlen2; omega⟩
    · rename_i x y rest heq
      refine ⟨distGo_chain (y :: rest) _, fun _ => rfl⟩

/-- Witness for C6 at a concrete segment: two points at (0,0) and (1,1) with
timestamps 0 and 1 and inherited initial distance 3. -/
theorem UpdateDistances_spec_witness :
    let items := [{ Timestamp := 0 : TrackItem },
      { Timestamp := 1, Latitude := 1, Longitude := 1 : TrackItem }]
    List.Chain' (· ≤ ·)
      ((UpdateDistances 3 items).map TrackItem.TotalDistance) ∧
    (2 ≤ items.length →
      ((UpdateDistances 3 items).headD default).TotalDistance = 3) :=
  UpdateDistances_spec 3 _

/-- Counterexample for claim C6 as stated: on a single-point segment whose
point carries a stored cumulative distance of 1, `UpdateDistances` with
inherited `initialDistance = 0` leaves the first (only) point's cumulative
distance at 1, not at the inherited 0: the update loop starts at index 1 and
never runs, so the seeding of the first point is skipped. -/
theorem UpdateDistances_single_not_seeded :
    ((UpdateDistances 0 [{ TotalDistance := 1 : TrackItem }]).headD
      default).TotalDistance = 1 ∧ (1 : ℝ) ≠ 0 := by
  constructor
  · have hperm := List.mergeSort_perm [{ TotalDistance := 1 : TrackItem }]
      (fun a b => a.Timestamp ≤ b.Timestamp)
    have hsingle := List.perm_singleton.mp hperm
    rw [UpdateDistances, if_neg (by simp), hsingle]
    rfl
  · norm_num

/-! ## Bearings (`bearing`, `GPXSegment::UpdateBearing`,
`src/src/gpx.cpp` 89-103 and 120-135) -/

/-- C `atan2(y, x)`: the angle of the point `(x, y)`, modelled as the
argument of the complex number `x + y i` (this matches `atan2(0, 0) = 0`). -/
noncomputable def atan2 (y x : ℝ) : ℝ := Complex.arg ⟨x, y⟩

/-- `bearing` from `src/src/gpx.cpp` (lines 89-99): forward azimuth in
degrees.  The source calls `atan2(x, y)` with `x` the east component and `y`
the north component. -/
noncomputable def bearing (lat1 lon1 lat2 lon2 : ℝ) : ℝ :=
  let lat1r := to_rad lat1
  let lon1r := to_rad lon1
  let lat2r := to_rad lat2
  let lon2r := to_rad lon2
  let x := Real.cos lat2r * Real.sin (lon2r - lon1r)
  let y := Real.cos lat1r * Real.sin lat2r -
    Real.sin lat1r * Real.cos lat2r * Real.cos (lon2r - lon1r)
  to_deg (atan2 x y)

/-- `bearing(const TrackItem &, const TrackItem &)` from `src/src/gpx.cpp`. -/
noncomputable def bearingI (i1 i2 : TrackItem) : ℝ :=
  bearing (i1.Latitude : ℝ) (i1.Longitude : ℝ) (i2.Latitude : ℝ) (i2.Longitude : ℝ)

/-- The loop of `UpdateBearing`: `i` is the running index, `prevB` the
current bearing of item `i - 1` (already updated when `i >= 1`); the list is
the suffix of the item vector from index `i`.  Only items with a successor
are updated, and the update at index `i` reads `m_items[i-1].Bearing` as left
by the previous iteration. -/
noncomputable def ubGo : ℕ → ℝ → List TrackItem → List TrackItem
  | i, prevB, x :: y :: rest =>
    let b := bearingI x y
    let x2 := if b = 0 then (if 1 < i then { x with Bearing := prevB } else x)
      else { x with Bearing := b }
    x2 :: ubGo (i + 1) x2.Bearing (y :: rest)
  | _, _, l => l

/-- `GPXSegment::UpdateBearing` (`src/src/gpx.cpp`, lines 120-135). -/
noncomputable def UpdateBearing (items : List TrackItem) : List TrackItem :=
  if items.length < 2 then items else ubGo 0 0 items

lemma ubGo_spec : ∀ (l : List TrackItem) (i0 : ℕ) (prevB : ℝ) (k : ℕ),
    k + 1 < l.length →
    ((ubGo i0 prevB l).getD k default).Bearing =
      (if bearingI (l.getD k default) (l.getD (k + 1) default) = 0 then
        (if 1 < i0 + k then
          (if k = 0 then prevB
           else ((ubGo i0 prevB l).getD (k - 1) default).Bearing)
         else (l.getD k default).Bearing)
       else bearingI (l.getD k default) (l.getD (k + 1) default)) := by
  intro l
  induction l with
  | nil => intro i0 prevB k hk; simp at hk
  | cons x l ih =>
    intro i0 prevB k hk
    match l, hk with
    | y :: rest, hk =>
      simp only [ubGo]
      cases k with
      | zero =>
        simp only [List.getD_cons_zero, List.getD_cons_succ, Nat.add_zero,
          if_pos rfl]
        by_cases hb : bearingI x y = 0
        · by_cases hi : 1 < i0
          · simp [hb, hi]
          · simp [hb, hi]
        · simp [hb]
      | succ k =>
        simp only [List.getD_cons_succ]
        have hk2 : k + 1 < (y :: rest).length := by simpa using hk
        have h := ih (i0 + 1) (if bearingI x y = 0 then (if 1 < i0 then ({ x with Bearing := prevB } : TrackItem) else x) else { x with Bearing := bearingI x y }).Bearing k hk2
        simp only [List.getD_cons_succ] at h
        rw [h]
        have e : i0 + 1 + k = i0 + (k + 1) := by omega
        rw [e]
        by_cases hb : bearingI ((y :: rest).getD k default)
            (rest.getD k default) = 0
        · rw [if_pos hb, if_pos hb]
          by_cases hi : 1 < i0 + (k + 1)
          · rw [if_pos hi, if_pos hi, if_neg (Nat.succ_ne_zero k)]
            cases k with
            | zero => simp
            | succ k2 => simp
          · rw [if_neg hi, if_neg hi]
        · rw [if_neg hb, if_neg hb]

/-- Claim C7, amended: in `UpdateBearing`, a point `i` with a successor gets
the computed forward-azimuth bearing whenever that bearing is nonzero; when
the computed bearing is exactly 0, the previous point's (already updated)
bearing is substituted only when at least TWO prior points exist (the source
guard is `i > 1`, not `i >= 1`), and with zero or one prior point the item's
bearing is left unchanged.  (Claim C7's wording "at least one prior point"
fails at `i = 1`, see `UpdateBearing_skips_index_one`.) -/
theorem UpdateBearing_spec (items : List TrackItem) (i : ℕ)
    (hi : i + 1 < items.length) :
    ((UpdateBearing items).getD i default).Bearing =
      (if bearingI (items.getD i default) (items.getD (i + 1) default) = 0 then
        (if 1 < i then ((UpdateBearing items).getD (i - 1) default).Bearing
         else (items.getD i default).Bearing)
       else bearingI (items.getD i default) (items.getD (i + 1) default)) := by
  rw [UpdateBearing, if_neg (by omega)]
  have h := ubGo_spec items 0 0 i hi
  rw [h]
  simp only [Nat.zero_add]
  by_cases hb : bearingI (items.getD i default) (items.getD (i + 1) default) = 0
  · rw [if_pos hb, if_pos hb]
    by_cases hi2 : 1 < i
    · rw [if_pos hi2, if_pos hi2, if_neg (by omega : ¬ i = 0)]
    · rw [if_neg hi2, if_neg hi2]
  · rw [if_neg hb, if_neg hb]

/-- Witness for C7 at a concrete segment: three identical-position points
(bearings 0, 7, 0); the characterization applies at index 0. -/
theorem UpdateBearing_spec_witness :
    let items := [{ Timestamp := 0 : TrackItem },
      { Timestamp := 1, Bearing := 7 : TrackItem },
      { Timestamp := 2 : TrackItem }]
    ((UpdateBearing items).getD 0 default).Bearing =
      (if bearingI (items.getD 0 default) (items.getD 1 default) = 0 then
        (if 1 < 0 then ((UpdateBearing items).getD (0 - 1) default).Bearing
         else (items.getD 0 default).Bearing)
       else bearingI (items.getD 0 default) (items.getD 1 default)) :=
  UpdateBearing_spec _ 0 (by decide)

lemma bearing_self (lat lon : ℝ) : bearing lat lon lat lon = 0 := by
  have h : (⟨Real.cos (to_rad lat) * Real.sin (to_rad lat) -
      Real.sin (to_rad lat) * Real.cos (to_rad lat) *
        Real.cos (to_rad lon - to_rad lon),
      Real.cos (to_rad lat) * Real.sin (to_rad lon - to_rad lon)⟩ : ℂ) = 0 := by
    rw [sub_self, Real.cos_zero, Real.sin_zero]
    apply Complex.ext
    · simp; ring
    · simp
  simp only [bearing, atan2, to_deg, h, Complex.arg_zero, zero_mul, zero_div]

/-- Counterexample for claim C7 as stated: on three identical-position points
with stored bearings 0, 7, 0, the computed bearing from point 1 to point 2 is
exactly 0 and a prior point (index 0, bearing 0) exists, yet point 1's
bearing stays 7 — it is neither replaced by the previous point's bearing nor
by the computed one, because the source guard is `i > 1`, not "at least one
prior point". -/
theorem UpdateBearing_skips_index_one :
    bearingI ([{ Timestamp := 0 : TrackItem },
        { Timestamp := 1, Bearing := 7 : TrackItem },
        { Timestamp := 2 : TrackItem }].getD 1 default)
      ([{ Timestamp := 0 : TrackItem },
        { Timestamp := 1, Bearing := 7 : TrackItem },
        { Timestamp := 2 : TrackItem }].getD 2 default) = 0 ∧
    ((UpdateBearing [{ Timestamp := 0 : TrackItem },
        { Timestamp := 1, Bearing := 7 : TrackItem },
        { Timestamp := 2 : TrackItem }]).getD 1 default).Bearing = 7 ∧
    ((UpdateBearing [{ Timestamp := 0 : TrackItem },
        { Timestamp := 1, Bearing := 7 : TrackItem },
        { Timestamp := 2 : TrackItem }]).getD 0 default).Bearing = 0 ∧
    (7 : ℝ) ≠ 0 := by
  have hb : ∀ a b : TrackItem, a.Latitude = 0 → a.Longitude = 0 →
      b.Latitude = 0 → b.Longitude = 0 → bearingI a b = 0 := by
    intro a b ha1 ha2 hb1 hb2
    rw [bearingI, ha1, ha2, hb1, hb2]
    exact bearing_self _ _
  have h01 : bearingI ({ Timestamp := 0 : TrackItem })
      ({ Timestamp := 1, Bearing := 7 : TrackItem }) = 0 := hb _ _ rfl rfl rfl rfl
  have h12 : bearingI ({ Timestamp := 1, Bearing := 7 : TrackItem })
      ({ Timestamp := 2 : TrackItem }) = 0 := hb _ _ rfl rfl rfl rfl
  have hres : UpdateBearing [{ Timestamp := 0 : TrackItem },
      { Timestamp := 1, Bearing := 7 : TrackItem },
      { Timestamp := 2 : TrackItem }] =
      [{ Timestamp := 0 : TrackItem },
      { Timestamp := 1, Bearing := 7 : TrackItem },
      { Timestamp := 2 : TrackItem }] := by
    rw [UpdateBearing, if_neg (by norm_num)]
    simp only [ubGo, h01, h12, if_pos rfl]
    norm_num
  refine ⟨h12, ?_, ?_, by norm_num⟩
  · rw [hres]; rfl
  · rw [hres]; rfl

/-! ## Zoom switching (`MapSwitcher`, `src/include/gpsmap/mapgen.h` 183-213
and `src/src/mapgen.cpp` 355-382) -/

/-- The mutable state of a `MapSwitcher`: the configured durations (the
`int` second components of `m_maps`; the generator pointers play no role in
the switching logic), `m_currentMapIndex`, `m_remainingDuration` and
`m_prevSecond` — all C++ `int`s, modelled as `ℤ`. -/
structure MapSwitcherState where
  maps : List ℤ
  currentMapIndex : ℤ
  remainingDuration : ℤ
  prevSecond : ℤ
  deriving DecidableEq, Repr

/-- The `MapSwitcher` constructor (`src/include/gpsmap/mapgen.h`). -/
def createSwitcher : MapSwitcherState :=
  { maps := [], currentMapIndex := 0, remainingDuration := 0, prevSecond := -1 }

/-- `MapSwitcher::AddMapGenerator` (`src/include/gpsmap/mapgen.h`): appends
a (generator, duration) pair and resets index 0 with `m_maps[0].second`. -/
def AddMapGenerator (st : MapSwitcherState) (duration : ℤ) : MapSwitcherState :=
  let maps := st.maps ++ [duration]
  { maps := maps, currentMapIndex := 0, remainingDuration := maps.getD 0 0,
    prevSecond := st.prevSecond }

/-- A `MapSwitcher` configured with the given durations, in order. -/
def initSwitcher (durations : List ℤ) : MapSwitcherState :=
  durations.foldl AddMapGenerator createSwitcher

/-- `(size_t)(idx + 1)` — conversion of the incremented `int` index to the
unsigned 64-bit `size_t` operand of `% m_maps.size()`. -/
def wrap64 (z : ℤ) : ℕ := (z % (2 : ℤ) ^ 64).toNat

/-- `(m_currentMapIndex + 1) % m_maps.size()` with the C++ `int`/`size_t`
conversions made explicit. -/
def advanceIndex (idx : ℤ) (n : ℕ) : ℤ := ((wrap64 (idx + 1)) % n : ℕ)

/-- The override callback `MapSwitcherCb = std::function<bool(int, int &)>`:
given the second, returns (overridden?, written index). -/
def SwitcherCb := ℤ → Bool × ℤ

/-- The body of `MapSwitcher::Generate` (`src/src/mapgen.cpp`, lines
355-382) as a state transition on the derived wall-clock `second`:
decrement (skipped while `m_prevSecond` is the initial -1), cyclic advance
with counter reset when the counter reaches zero, then the override hook
(only consulted when more than one map is configured; an override index is
adopted whenever it is below `m_maps.size()` — there is no lower bound
check).  When the second equals `m_prevSecond` the state is unchanged. -/
def generateStep (cb : SwitcherCb) (st : MapSwitcherState) (second : ℤ) :
    MapSwitcherState :=
  if second ≠ st.prevSecond then
    let rem1 := if 0 ≤ st.prevSecond then st.remainingDuration - 1
      else st.remainingDuration
    let idx2 := if rem1 = 0 then advanceIndex st.currentMapIndex st.maps.length
      else st.currentMapIndex
    let rem2 := if rem1 = 0 then st.maps.getD idx2.toNat 0 else rem1
    let idx3 := if 1 < st.maps.length then
        (let r := cb second
         if r.1 = true ∧ r.2 < (st.maps.length : ℤ) then r.2 else idx2)
      else idx2
    { maps := st.maps, currentMapIndex := idx3, remainingDuration := rem2,
      prevSecond := second }
  else st

/-- `MapSwitcher::Generate` for a frame: `int second = frameIndex / fps`
(C++ `int` division truncates toward zero, `Int.tdiv`), then the per-second
transition. -/
def Generate (cb : SwitcherCb) (st : MapSwitcherState)
    (frameIndex fps : ℤ) : MapSwitcherState :=
  generateStep cb st (Int.tdiv frameIndex fps)

/-- A sequence of `Generate` calls at the given frame indices. -/
def runCalls (cb : SwitcherCb) (durations : List ℤ) (frames : List ℤ)
    (fps : ℤ) : MapSwitcherState :=
  frames.foldl (fun st f => Generate cb st f fps) (initSwitcher durations)

lemma foldl_addMap (ds : List ℤ) :
    ∀ (acc : List ℤ) (i r p : ℤ), ds ≠ [] →
      ds.foldl AddMapGenerator ⟨acc, i, r, p⟩ =
        ⟨acc ++ ds, 0, (acc ++ ds).getD 0 0, p⟩ := by
  induction ds with
  | nil => intro _ _ _ _ h; exact absurd rfl h
  | cons d ds ih =>
    intro acc i r p _
    cases ds with
    | nil => simp [AddMapGenerator]
    | cons d2 ds2 =>
      rw [List.foldl_cons]
      rw [show AddMapGenerator ⟨acc, i, r, p⟩ d =
        ⟨acc ++ [d], 0, (acc ++ [d]).getD 0 0, p⟩ from rfl]
      rw [ih (acc ++ [d]) 0 ((acc ++ [d]).getD 0 0) p (by simp)]
      simp

lemma initSwitcher_eq (ds : List ℤ) (h : ds ≠ []) :
    initSwitcher ds = ⟨ds, 0, ds.getD 0 0, -1⟩ := by
  rw [initSwitcher, createSwitcher, foldl_addMap ds [] 0 0 (-1) h]
  simp

lemma generateStep_maps (cb : SwitcherCb) (st : MapSwitcherState) (second : ℤ) :
    (generateStep cb st second).maps = st.maps := by
  rw [generateStep]
  split <;> rfl

lemma advanceIndex_valid (idx : ℤ) (n : ℕ) (hn : 0 < n) :
    0 ≤ advanceIndex idx n ∧ advanceIndex idx n < (n : ℤ) := by
  rw [advanceIndex]
  constructor
  · exact Int.ofNat_nonneg _
  · exact_mod_cast Nat.mod_lt _ hn

lemma generateStep_valid (cb : SwitcherCb)
    (hcb : ∀ s, (cb s).1 = true → 0 ≤ (cb s).2)
    (st : MapSwitcherState) (second : ℤ) (hmaps : st.maps ≠ [])
    (h : 0 ≤ st.currentMapIndex ∧ st.currentMapIndex < (st.maps.length : ℤ)) :
    0 ≤ (generateStep cb st second).currentMapIndex ∧
      (generateStep cb st second).currentMapIndex <
        ((generateStep cb st second).maps.length : ℤ) := by
  rw [generateStep_maps]
  rw [generateStep]
  split
  · have hn : 0 < st.maps.length := List.length_pos.mpr hmaps
    simp only
    repeat' split
    all_goals first
      | exact h
      | exact advanceIndex_valid _ _ hn
      | (rename_i hov; exact ⟨hcb _ hov.1, hov.2⟩)
  · exact h

/-- Claim C10, amended: for a `MapSwitcher` with at least one configured
map, any fps and any sequence of `Generate` calls, the selected map index
stays within `[0, #maps)` PROVIDED the override callback never reports a
negative index.  The override guard only checks the upper bound
(`overrideIndex < (int)m_maps.size()`), so a callback reporting a negative
index such as -1 is adopted verbatim and breaks validity, see
`MapSwitcher_negative_override`. -/
lemma foldl_generate_valid (cb : SwitcherCb)
    (hcb : ∀ s, (cb s).1 = true → 0 ≤ (cb s).2) (fps : ℤ) :
    ∀ (frames : List ℤ) (st : MapSwitcherState), st.maps ≠ [] →
      0 ≤ st.currentMapIndex ∧ st.currentMapIndex < (st.maps.length : ℤ) →
      0 ≤ (frames.foldl (fun s f => Generate cb s f fps) st).currentMapIndex ∧
        (frames.foldl (fun s f => Generate cb s f fps) st).currentMapIndex <
          (((frames.foldl (fun s f => Generate cb s f fps) st).maps.length : ℤ)) := by
  intro frames
  induction frames with
  | nil => intro st _ h; exact h
  | cons f fs ih =>
    intro st hmaps h
    rw [List.foldl_cons]
    exact ih (Generate cb st f fps)
      (by rw [Generate, generateStep_maps]; exact hmaps)
      (generateStep_valid cb hcb st _ hmaps h)

/-- Claim C10, amended: for a `MapSwitcher` with at least one configured
map, any fps and any sequence of `Generate` calls, the selected map index
stays within `[0, #maps)` PROVIDED the override callback never reports a
negative index.  (The override guard only checks the upper bound,
`overrideIndex < (int)m_maps.size()`, so a callback reporting a negative
index such as -1 is adopted verbatim and breaks validity, see
`MapSwitcher_negative_override`.) -/
theorem MapSwitcher_index_valid (cb : SwitcherCb) (durations : List ℤ)
    (hd : durations ≠ []) (hcb : ∀ s, (cb s).1 = true → 0 ≤ (cb s).2)
    (frames : List ℤ) (fps : ℤ) :
    0 ≤ (runCalls cb durations frames fps).currentMapIndex ∧
      (runCalls cb durations frames fps).currentMapIndex <
        ((runCalls cb durations frames fps).maps.length : ℤ) := by
  rw [runCalls]
  refine foldl_generate_valid cb hcb fps frames (initSwitcher durations) ?_ ?_
  · rw [initSwitcher_eq durations hd]; exact hd
  · rw [initSwitcher_eq durations hd]
    refine ⟨le_refl 0, ?_⟩
    show (0 : ℤ) < (durations.length : ℤ)
    exact_mod_cast List.length_pos.mpr hd

/-- Witness for C10: a switcher with durations [5, 7], a callback that never
overrides, fps 30 and three Generate calls keeps the index valid. -/
theorem MapSwitcher_index_valid_witness :
    0 ≤ (runCalls (fun _ => (false, 0)) [5, 7] [0, 1, 2] 30).currentMapIndex ∧
      (runCalls (fun _ => (false, 0)) [5, 7] [0, 1, 2] 30).currentMapIndex <
        (((runCalls (fun _ => (false, 0)) [5, 7] [0, 1, 2] 30).maps.length : ℤ)) :=
  MapSwitcher_index_valid _ [5, 7] (by decide)
    (fun s h => by exact absurd h (by decide)) [0, 1, 2] 30

/-- Counterexample for claim C10 as stated: with two configured maps and an
override callback reporting index -1, a single Generate call drives
`m_currentMapIndex` to -1 — the guard `overrideIndex < (int)m_maps.size()`
admits negative indices, after which `m_maps[m_currentMapIndex]` is an
out-of-bounds access. -/
theorem MapSwitcher_negative_override :
    (runCalls (fun _ => (true, -1)) [1, 1] [0] 1).currentMapIndex = -1 ∧
      ¬ (0 ≤ (runCalls (fun _ => (true, -1)) [1, 1] [0] 1).currentMapIndex) := by
  constructor
  · rfl
  · decide

/-- The override callback that never overrides (`override=never` in the
round-robin property). -/
def cbNever : SwitcherCb := fun _ => (false, 0)

/-- One `Generate` call at the first frame of each wall-clock second:
`runSecondsAt cb d fps (s+1)` is the switcher state right after the
`Generate` call for frame `s * fps` (the call in which `frameIndex / fps`
first evaluates to `s`); calls for the later frames of a second leave the
state unchanged (`generateStep_same_second`). -/
def runSecondsAt (cb : SwitcherCb) (durations : List ℤ) (fps : ℤ) :
    ℕ → MapSwitcherState
  | 0 => initSwitcher durations
  | s + 1 => Generate cb (runSecondsAt cb durations fps s) ((s : ℤ) * fps) fps

/-- The map index selected for second `s`. -/
def selSecond (cb : SwitcherCb) (durations : List ℤ) (fps : ℤ) (s : ℕ) : ℤ :=
  (runSecondsAt cb durations fps (s + 1)).currentMapIndex

lemma generateStep_same_second (cb : SwitcherCb) (st : MapSwitcherState) :
    generateStep cb st st.prevSecond = st := by
  rw [generateStep, if_neg (by simp)]

/-- Modelled from the spec (for comparison with the code): the round-robin
window index — the unique `k` with
`sum (take k d) <= s < sum (take (k+1) d)` for positive durations. -/
def winIdx : List ℕ → ℕ → ℕ
  | [], _ => 0
  | x :: rest, s => if s < x then 0 else winIdx rest (s - x) + 1

lemma sum_take_succ (d : List ℕ) :
    ∀ k, k < d.length → (d.take (k + 1)).sum = (d.take k).sum + d.getD k 0 := by
  induction d with
  | nil => intro k hk; simp at hk
  | cons x rest ih =>
    intro k hk
    cases k with
    | zero => simp
    | succ k =>
      simp only [List.take_succ_cons, List.sum_cons, List.getD_cons_succ]
      rw [ih k (by simpa using hk)]
      omega

lemma sum_take_le (d : List ℕ) (k : ℕ) : (d.take k).sum ≤ d.sum := by
  conv_rhs => rw [← List.take_append_drop k d]
  rw [List.sum_append]
  exact Nat.le_add_right _ _

lemma winIdx_spec (d : List ℕ) :
    ∀ s, s < d.sum → winIdx d s < d.length ∧
      (d.take (winIdx d s)).sum ≤ s ∧ s < (d.take (winIdx d s + 1)).sum := by
  induction d with
  | nil => intro s h; simp at h
  | cons x rest ih =>
    intro s hs
    rw [winIdx]
    split
    · rename_i hx
      refine ⟨by simp, by simp, by simpa using hx⟩
    · rename_i hx
      push_neg at hx
      have hs2 : s - x < rest.sum := by simp at hs; omega
      obtain ⟨h1, h2, h3⟩ := ih (s - x) hs2
      refine ⟨by simpa using h1, ?_, ?_⟩
      · simp only [List.take_succ_cons, List.sum_cons]
        omega
      · simp only [List.take_succ_cons, List.sum_cons]
        omega

lemma winIdx_unique (d : List ℕ) :
    ∀ k s, k < d.length → (d.take k).sum ≤ s → s < (d.take (k + 1)).sum →
      winIdx d s = k := by
  induction d with
  | nil => intro k s hk _ _; simp at hk
  | cons x rest ih =>
    intro k s hk h1 h2
    rw [winIdx]
    cases k with
    | zero => rw [if_pos (by simpa using h2)]
    | succ k =>
      have hxs : x ≤ s := by
        simp only [List.take_succ_cons, List.sum_cons] at h1
        omega
      rw [if_neg (by omega)]
      have := ih k (s - x) (by simpa using hk)
        (by simp only [List.take_succ_cons, List.sum_cons] at h1; omega)
        (by simp only [List.take_succ_cons, List.sum_cons] at h2; omega)
      omega

lemma getD_pos (d : List ℕ) (hd : ∀ x ∈ d, 0 < x) (k : ℕ)
    (hk : k < d.length) : 0 < d.getD k 0 := by
  rw [List.getD_eq_getElem d 0 hk]
  exact hd _ (List.getElem_mem hk)

/-- The configured durations as the `int` list stored in `m_maps`. -/
def intDur (d : List ℕ) : List ℤ := d.map Int.ofNat

lemma getD_map_int (d : List ℕ) :
    ∀ k, (intDur d).getD k 0 = (d.getD k 0 : ℤ) := by
  induction d with
  | nil => intro k; simp [intDur]
  | cons x rest ih =>
    intro k
    cases k with
    | zero => simp [intDur]
    | succ k => simpa [intDur] using ih k

lemma advanceIndex_nat (w n : ℕ) (h : w + 1 < 2 ^ 64) :
    advanceIndex (w : ℤ) n = (((w + 1) % n : ℕ) : ℤ) := by
  rw [advanceIndex, wrap64]
  have h1 : ((w : ℤ) + 1) % 2 ^ 64 = (w : ℤ) + 1 :=
    Int.emod_eq_of_lt (by positivity) (by exact_mod_cast h)
  rw [h1, show ((w : ℤ) + 1) = ((w + 1 : ℕ) : ℤ) by push_cast; ring,
    Int.toNat_natCast]

lemma generateStep_never_first (maps : List ℤ) (idx rem prev second : ℤ)
    (hne : second ≠ prev) (hprev : ¬ 0 ≤ prev) (hrem : ¬ rem = 0) :
    generateStep cbNever ⟨maps, idx, rem, prev⟩ second =
      ⟨maps, idx, rem, second⟩ := by
  rw [generateStep, if_pos hne]
  simp [cbNever, hprev, hrem]

lemma generateStep_never_stay (maps : List ℤ) (idx rem prev second : ℤ)
    (hne : second ≠ prev) (hprev : 0 ≤ prev) (hrem : ¬ rem - 1 = 0) :
    generateStep cbNever ⟨maps, idx, rem, prev⟩ second =
      ⟨maps, idx, rem - 1, second⟩ := by
  rw [generateStep, if_pos hne]
  simp [cbNever, hprev, hrem]

lemma generateStep_never_adv (maps : List ℤ) (idx rem prev second : ℤ)
    (hne : second ≠ prev) (hprev : 0 ≤ prev) (hrem : rem - 1 = 0) :
    generateStep cbNever ⟨maps, idx, rem, prev⟩ second =
      ⟨maps, advanceIndex idx maps.length,
        maps.getD (advanceIndex idx maps.length).toNat 0, second⟩ := by
  rw [generateStep, if_pos hne]
  simp [cbNever, hprev, hrem]

lemma runSeconds_window (d : List ℕ) (fps : ℤ) (hd : ∀ x ∈ d, 0 < x)
    (hfps : 0 < fps) (hlen : d.length < 2 ^ 31) :
    ∀ s, s < d.sum →
      runSecondsAt cbNever (intDur d) fps (s + 1) =
        ⟨intDur d, (winIdx d s : ℤ),
          ((d.take (winIdx d s + 1)).sum : ℤ) - (s : ℤ), (s : ℤ)⟩ := by
  have hfz : fps ≠ 0 := by omega
  intro s
  induction s with
  | zero =>
    intro hs
    have hdne : d ≠ [] := by intro h; rw [h] at hs; simp at hs
    have hdz : intDur d ≠ [] := by
      cases d with
      | nil => exact absurd rfl hdne
      | cons a l => simp [intDur]
    have hlen0 : 0 < d.length := List.length_pos.mpr hdne
    have hpos0 : 0 < d.getD 0 0 := getD_pos d hd 0 hlen0
    have hw : winIdx d 0 = 0 :=
      winIdx_unique d 0 0 hlen0 (by simp)
        (by rw [sum_take_succ d 0 hlen0]; simpa using hpos0)
    have ht1 : (d.take (0 + 1)).sum = d.getD 0 0 := by
      rw [sum_take_succ d 0 hlen0]; simp
    rw [runSecondsAt, runSecondsAt, Generate, initSwitcher_eq _ hdz]
    rw [show ((0 : ℕ) : ℤ) * fps = 0 * fps by norm_num, zero_mul, Int.zero_tdiv]
    rw [generateStep_never_first _ _ _ _ _ (by norm_num) (by norm_num)
      (by rw [getD_map_int]; exact_mod_cast hpos0.ne')]
    rw [hw, ht1, getD_map_int]
    simp

  | succ s ih =>
    intro hs2
    have hs1 : s < d.sum := by omega
    have hst := ih hs1
    obtain ⟨hwlt, hw1, hw2⟩ := winIdx_spec d s hs1
    rw [runSecondsAt, hst, Generate, Int.mul_tdiv_cancel _ hfz]
    have hne : ((s + 1 : ℕ) : ℤ) ≠ ((s : ℕ) : ℤ) := by omega
    have hprev : (0 : ℤ) ≤ ((s : ℕ) : ℤ) := Int.ofNat_nonneg s
    by_cases hz0 : (d.take (winIdx d s + 1)).sum = s + 1
    · have hzi : ((d.take (winIdx d s + 1)).sum : ℤ) - (s : ℤ) - 1 = 0 := by
        rw [hz0]; push_cast; ring
      have hw1lt : winIdx d s + 1 < d.length := by
        rcases Nat.lt_or_ge (winIdx d s + 1) d.length with h | h
        · exact h
        · exfalso
          have : (d.take (winIdx d s + 1)).sum = d.sum := by
            rw [List.take_of_length_le h]
          omega
      rw [generateStep_never_adv _ _ _ _ _ hne hprev hzi]
      have hbound : winIdx d s + 1 < 2 ^ 64 := by
        have h31 : (2 : ℕ) ^ 31 + 1 < 2 ^ 64 := by norm_num
        omega
      have hadv : advanceIndex ((winIdx d s : ℕ) : ℤ) (intDur d).length
          = ((winIdx d s + 1 : ℕ) : ℤ) := by
        rw [advanceIndex_nat _ _ hbound, intDur, List.length_map,
          Nat.mod_eq_of_lt hw1lt]
      rw [hadv, Int.toNat_natCast, getD_map_int]
      have hwnew : winIdx d (s + 1) = winIdx d s + 1 := by
        apply winIdx_unique d _ _ hw1lt (le_of_eq hz0)
        rw [sum_take_succ d _ hw1lt]
        have := getD_pos d hd _ hw1lt
        omega
      rw [hwnew]
      congr 1
      rw [sum_take_succ d _ hw1lt, hz0]
      push_cast
      ring
    · have hzni : ¬ (((d.take (winIdx d s + 1)).sum : ℤ) - (s : ℤ) - 1 = 0) := by
        intro h
        apply hz0
        have h2 : ((d.take (winIdx d s + 1)).sum : ℤ) = ((s + 1 : ℕ) : ℤ) := by
          push_cast at h ⊢
          linarith
        exact_mod_cast h2
      rw [generateStep_never_stay _ _ _ _ _ hne hprev hzni]
      have hPgt : s + 1 < (d.take (winIdx d s + 1)).sum := by omega
      have hwnew : winIdx d (s + 1) = winIdx d s :=
        winIdx_unique d _ _ hwlt (by omega) hPgt
      rw [hwnew]
      congr 1
      push_cast
      ring

/-- Claim C8: with positive configured durations, a callback that never
overrides and a fixed fps, the per-second selection is round-robin: for
every second `s` inside one full cycle (`s < sum of durations`), the
selected index is the round-robin window index of `s`, and over the full
cycle (whose length is exactly the sum of the configured durations in
seconds) each index `k` is selected for exactly its configured duration.
The decrement is skipped on the very first second (`m_prevSecond` starts at
-1), which is what makes the first window exactly `durations[0]` seconds
long; a zero counter advances cyclically with the counter reset to the next
entry's configured duration.  The `2 ^ 31` bound reflects the C++ `int`
index. -/
theorem MapSwitcher_round_robin (d : List ℕ) (fps : ℤ)
    (hd : ∀ x ∈ d, 0 < x) (hfps : 0 < fps) (hlen : d.length < 2 ^ 31) :
    (∀ s, s < d.sum →
      selSecond cbNever (intDur d) fps s = (winIdx d s : ℤ)) ∧
    (∀ k, k < d.length →
      ((Finset.range d.sum).filter
        (fun s => selSecond cbNever (intDur d) fps s
          = (k : ℤ))).card = d.getD k 0) := by
  have hwin := runSeconds_window d fps hd hfps hlen
  constructor
  · intro s hs
    rw [selSecond, hwin s hs]
  · intro k hk
    have hPk1 : (d.take (k + 1)).sum ≤ d.sum := sum_take_le d (k + 1)
    have hfilter : (Finset.range d.sum).filter
        (fun s => selSecond cbNever (intDur d) fps s
          = (k : ℤ)) =
        Finset.Ico ((d.take k).sum) ((d.take (k + 1)).sum) := by
      apply Finset.ext
      intro s
      simp only [Finset.mem_filter, Finset.mem_range, Finset.mem_Ico]
      constructor
      · rintro ⟨hs, hsel⟩
        rw [selSecond, hwin s hs] at hsel
        have hsel2 : ((winIdx d s : ℕ) : ℤ) = (k : ℤ) := hsel
        have hks : winIdx d s = k := by exact_mod_cast hsel2
        obtain ⟨_, h1, h2⟩ := winIdx_spec d s hs
        rw [hks] at h1 h2
        exact ⟨h1, h2⟩
      · rintro ⟨h1, h2⟩
        have hs : s < d.sum := lt_of_lt_of_le h2 hPk1
        have hks : winIdx d s = k := winIdx_unique d k s hk h1 h2
        refine ⟨hs, ?_⟩
        rw [selSecond, hwin s hs]
        show ((winIdx d s : ℕ) : ℤ) = (k : ℤ)
        exact_mod_cast hks
    rw [hfilter, Nat.card_Ico, sum_take_succ d k hk]
    omega

/-- Witness for C8: durations [1, 2] at fps 30 — second 2 selects window
index 1, and index 1 is selected for exactly 2 of the 3 seconds of the
cycle. -/
theorem MapSwitcher_round_robin_witness :
    selSecond cbNever (intDur [1, 2]) 30 2
      = (winIdx [1, 2] 2 : ℤ) ∧
    ((Finset.range ([1, 2] : List ℕ).sum).filter
      (fun s => selSecond cbNever (intDur [1, 2]) 30 s
        = ((1 : ℕ) : ℤ))).card = ([1, 2] : List ℕ).getD 1 0 :=
  ⟨(MapSwitcher_round_robin [1, 2] 30 (by decide) (by norm_num)
      (by norm_num)).1 2 (by norm_num),
   (MapSwitcher_round_robin [1, 2] 30 (by decide) (by norm_num)
      (by norm_num)).2 1 (by norm_num)⟩

/-! ## Video-segment scheduling (`ComputeMapSegmentsForGpxVideos`,
`src/src/utils.cpp` 180-228) -/

/-- `struct VideoInfo` from `src/include/gpsmap/utils.h`.  The `AVRational`
frame rate is the exact pair (numerator, denominator); `Start` is a
`time_t`. -/
structure VideoInfo where
  Path : String := ""
  FileId : ℤ := 0
  FileSequence : ℤ := 0
  FrameRate : ℤ × ℤ := (0, 1)
  FrameCount : ℕ := 0
  Start : ℤ := 0
  Duration : ℚ := 0
  deriving Repr

instance : Inhabited VideoInfo := ⟨{}⟩

/-- `struct GPXInfo` from `src/include/gpsmap/gpx.h`. -/
structure GPXInfo where
  Start : ℤ := 0
  Duration : ℚ := 0
  deriving Repr

/-- The inner `while (j < videoInfo.size())` loop of the gpx-overload of
`ComputeMapSegmentsForGpxVideos`: coalesces the following entries with the
same file id into the accumulator `i0`, checking sequence contiguity and
identical frame rate (`return false` -> `none`), accumulating the frame
count and re-deriving the duration as `gpxInfo[j].Start - i0.Start +
gpxInfo[j].Duration`.  The `assert(i0.Start < gpxInfo[j].Start)` (process
abort) is modelled as `none` as well.  Returns the merged descriptor, the
updated `fileId` and the unconsumed tail. -/
def innerMerge (i0 : VideoInfo) (seq fileId : ℤ) :
    List (VideoInfo × GPXInfo) →
      Option (VideoInfo × ℤ × List (VideoInfo × GPXInfo))
  | [] => some (i0, fileId, [])
  | (i1, g1) :: rest =>
    if i1.FileId ≠ i0.FileId then some (i0, fileId, (i1, g1) :: rest)
    else if i1.FileSequence ≠ seq + 1 then none
    else if i1.FrameRate ≠ i0.FrameRate then none
    else if ¬ (i0.Start < g1.Start) then none
    else
      let d2 : ℚ := ((g1.Start - i0.Start : ℤ) : ℚ) + g1.Duration
      innerMerge { i0 with FrameCount := i0.FrameCount + i1.FrameCount, Duration := d2 } i1.FileSequence i1.FileId rest

/-- The outer `while (i < videoInfo.size())` loop.  Each iteration consumes
at least one entry, so the list length is enough fuel; `assert(i0.FileId >
fileId)` is modelled as `none`.  The group leader takes its `Start` and
`Duration` from the gpx info at its own position. -/
def computeLoop : ℕ → ℤ → List (VideoInfo × GPXInfo) → Option (List VideoInfo)
  | _, _, [] => some []
  | 0, _, _ :: _ => none
  | fuel + 1, fileId, (v, g) :: rest =>
    if ¬ (fileId < v.FileId) then none
    else
      match innerMerge { v with Start := g.Start, Duration := g.Duration }
        v.FileSequence fileId rest with
      | none => none
      | some (m, fileId2, rest2) =>
        match computeLoop fuel fileId2 rest2 with
        | none => none
        | some tail => some (m :: tail)

/-- `ComputeMapSegmentsForGpxVideos(videoInfo, gpxInfo, segments)`
(`src/src/utils.cpp`, lines 180-228); `none` models `return false` (and the
asserted aborts). -/
def ComputeMapSegmentsForGpxVideos (videoInfo : List VideoInfo)
    (gpxInfo : List GPXInfo) : Option (List VideoInfo) :=
  if gpxInfo.length ≠ videoInfo.length then none
  else computeLoop videoInfo.length (-1) (videoInfo.zip gpxInfo)

/-- Claim C9: the two-entry input `{file=0,seq=0,frames=6000,rate=60/1}`,
`{file=0,seq=1,frames=6660,rate=60/1}` with matching contiguous gpx info
(starts 0 and 100 seconds, durations 100 and 111 seconds) succeeds and
merges into exactly one descriptor with 12660 frames, the first file's
start (0) and the total span 100 - 0 + 111 = 211 seconds as duration. -/
theorem ComputeMapSegments_example :
    ComputeMapSegmentsForGpxVideos
      [{ FileId := 0, FileSequence := 0, FrameRate := (60, 1),
         FrameCount := 6000 },
       { FileId := 0, FileSequence := 1, FrameRate := (60, 1),
         FrameCount := 6660 }]
      [{ Start := 0, Duration := 100 }, { Start := 100, Duration := 111 }] =
    some [{ FileId := 0, FileSequence := 0, FrameRate := (60, 1),
            FrameCount := 12660, Start := 0, Duration := 211 }] := by
  norm_num [ComputeMapSegmentsForGpxVideos, computeLoop, innerMerge]

/-! ## Tile cache (`Tile`, `TileManager::GetTile`,
`src/src/tilemanager.cpp` 94-233)

Concurrent calls to `GetTile(x, y, zoom)` for one fixed key are modelled as
an interleaving of atomic actions over a shared cache cell.  Each atomic
action corresponds to one critical section of the source:

* the locked lookup/insert of `GetTile` (lines 208-221): the first caller
  inserts the `LOADING` placeholder and becomes the owner, every later
  caller finds the entry and becomes a waiter;
* the owner's `DownloadTile` (disk or network fetch; on success
  `Tile::Load` sets `LOADED` under the tile lock and notifies);
* on fetch failure, `Tile::Fail` (sets `FAILED` and notifies) followed by
  `return nullptr`;
* a waiter's `Tile::WaitUntilDownloaded`, which blocks while the state is
  `LOADING`; once woken the waiter returns the shared tile pointer — the
  boolean result of `WaitUntilDownloaded` (state == LOADED) is discarded by
  `GetTile`.

The boolean `o` fixes the outcome of the (single) fetch for the key. -/

/-- `Tile::State` (`src/include/gpsmap/tilemanager.h`). -/
inductive TileState
  | loading
  | loaded
  | failed
  deriving DecidableEq, Repr

/-- Where one `GetTile` caller stands.  `done isOwner gotTile` is a caller
whose call has returned; `gotTile` records whether it returned the shared
tile pointer (`true`) or `nullptr` (`false`). -/
inductive CallerState
  | start
  | owner
  | ownerOk
  | ownerErr
  | waiter
  | done (isOwner : Bool) (gotTile : Bool)
  deriving DecidableEq, Repr

instance : Inhabited CallerState := ⟨.done false false⟩

/-- The shared cache cell for one tile key, the fetch counter and the
per-caller program counters. -/
structure CacheState where
  tile : Option TileState
  fetched : ℕ
  callers : List CallerState
  deriving DecidableEq, Repr

/-- One atomic action of caller `c` (no-op when the caller is finished,
blocked, or out of range), with fetch outcome `o`. -/
def step (o : Bool) (s : CacheState) (c : ℕ) : CacheState :=
  match s.callers.getD c default with
  | .start =>
    match s.tile with
    | none => { s with tile := some .loading, callers := s.callers.set c .owner }
    | some _ => { s with callers := s.callers.set c .waiter }
  | .owner =>
    if o then
      { s with tile := some .loaded, fetched := s.fetched + 1, callers := s.callers.set c .ownerOk }
    else
      { s with fetched := s.fetched + 1, callers := s.callers.set c .ownerErr }
  | .ownerOk => { s with callers := s.callers.set c (.done true true) }
  | .ownerErr =>
    { s with tile := some .failed, callers := s.callers.set c (.done true false) }
  | .waiter =>
    match s.tile with
    | some .loaded => { s with callers := s.callers.set c (.done false true) }
    | some .failed => { s with callers := s.callers.set c (.done false true) }
    | _ => s
  | .done _ _ => s

/-- `n` fresh concurrent callers of `GetTile` for one key not in the cache. -/
def initCache (n : ℕ) : CacheState := ⟨none, 0, List.replicate n .start⟩

/-- Run a schedule (a sequence of caller ids, each performing its next
atomic action). -/
def runTile (o : Bool) (n : ℕ) (sched : List ℕ) : CacheState :=
  sched.foldl (step o) (initCache n)

/-- Everyone has returned. -/
def CompletedRun (s : CacheState) : Prop :=
  ∀ cs ∈ s.callers, ∃ b r, cs = CallerState.done b r

instance (s : CacheState) : Decidable (CompletedRun s) := by
  unfold CompletedRun
  refine List.decidableBAll _ _

/-- Claim C2 evaluated on the failing input (the claim is right, the code
is wrong): a waiter blocked on a `LOADING` tile stays blocked until the
state changes; once the tile is `LOADED` it returns the tile; but when the
tile is `FAILED` the call ALSO returns the shared (non-null) tile instead
of failure, because `GetTile` discards the boolean result of
`WaitUntilDownloaded` (tilemanager.cpp line 224) and returns `ret`
unconditionally. -/
theorem GetTile_waiter_returns_failed_tile :
    step true ⟨some .loading, 1, [.waiter]⟩ 0 = ⟨some .loading, 1, [.waiter]⟩ ∧
    step true ⟨some .loaded, 1, [.waiter]⟩ 0 =
      ⟨some .loaded, 1, [.done false true]⟩ ∧
    step true ⟨some .failed, 1, [.waiter]⟩ 0 =
      ⟨some .failed, 1, [.done false true]⟩ ∧
    CallerState.done false true ≠ CallerState.done false false := by
  refine ⟨rfl, rfl, rfl, by decide⟩

/-- The caller owns the cache entry (inserted the placeholder). -/
def ownerish : CallerState → Bool
  | .owner | .ownerOk | .ownerErr => true
  | .done b _ => b
  | _ => false

/-- The caller has performed its (one) `DownloadTile` fetch attempt. -/
def fetchDone : CallerState → Bool
  | .ownerOk | .ownerErr => true
  | .done b _ => b
  | _ => false

/-- The dedup invariant: while the cache entry is absent nobody has done
anything; once it exists there is exactly one owner, and the fetch counter
is 1 exactly when that owner is past its fetch. -/
def TileInv (s : CacheState) : Prop :=
  (s.tile = none → s.fetched = 0 ∧ ∀ cs ∈ s.callers, cs = CallerState.start) ∧
  (∀ t, s.tile = some t → ∃ c, c < s.callers.length ∧
    ownerish (s.callers.getD c default) = true ∧
    (∀ c2, c2 < s.callers.length → c2 ≠ c →
      ownerish (s.callers.getD c2 default) = false) ∧
    s.fetched = (if fetchDone (s.callers.getD c default) = true then 1 else 0))

lemma getD_set_caller (l : List CallerState) :
    ∀ (c : ℕ) (v : CallerState) (i : ℕ),
      (l.set c v).getD i default =
        if c = i ∧ c < l.length then v else l.getD i default := by
  induction l with
  | nil => intro c v i; simp
  | cons x xs ih =>
    intro c v i
    cases c with
    | zero =>
      cases i with
      | zero => simp
      | succ i => simp
    | succ c =>
      cases i with
      | zero => simp
      | succ i =>
        show ((xs.set c v).getD i default) = _
        rw [ih c v i]
        simp only [List.length_cons, List.getD_cons_succ]
        by_cases h : c = i ∧ c < xs.length
        · rw [if_pos h, if_pos (by omega)]
        · rw [if_neg h, if_neg (by omega)]

lemma getD_lt_length (l : List CallerState) (c : ℕ)
    (h : l.getD c default ≠ default) : c < l.length := by
  by_contra hge
  rw [List.getD_eq_default] at h
  · exact h rfl
  · omega

lemma mem_of_getD (l : List CallerState) (c : ℕ) (h : c < l.length) :
    l.getD c default ∈ l := by
  rw [List.getD_eq_getElem l default h]
  exact List.getElem_mem h

lemma step_length (o : Bool) (s : CacheState) (c : ℕ) :
    (step o s c).callers.length = s.callers.length := by
  cases hcs : s.callers.getD c default with
  | start =>
    rcases htile : s.tile with _ | t0 <;> (rw [step, hcs, htile]; simp)
  | owner =>
    cases o <;> (rw [step, hcs]; simp)
  | ownerOk => rw [step, hcs]; simp
  | ownerErr => rw [step, hcs]; simp
  | waiter =>
    rcases htile : s.tile with _ | t0
    · rw [step, hcs, htile]; try rfl
    · rcases t0 with _ | _ | _ <;> (rw [step, hcs, htile]) <;> simp
  | done b r => rw [step, hcs]; try rfl

lemma inv_some_set (s : CacheState) (t0 : TileState) (htile : s.tile = some t0)
    (hInv : TileInv s) (c : ℕ) (v : CallerState) (hvown : ownerish v = false)
    (hcown : ownerish (s.callers.getD c default) = false) :
    TileInv { s with callers := s.callers.set c v } := by
  obtain ⟨_, hsome⟩ := hInv
  constructor
  · intro h
    rw [htile] at h
    exact absurd h (by simp)
  · intro t ht
    obtain ⟨c0, hlen0, hown0, huniq0, hfet0⟩ := hsome t ht
    have hne0 : c ≠ c0 := by
      intro he
      rw [he, hown0] at hcown
      exact absurd hcown (by decide)
    refine ⟨c0, by simpa using hlen0, ?_, ?_, ?_⟩
    · have hgd : (s.callers.set c v).getD c0 default =
          s.callers.getD c0 default := by
        rw [getD_set_caller,
          if_neg (show ¬ (c = c0 ∧ c < s.callers.length) from fun hh => hne0 hh.1)]
      rw [hgd]
      exact hown0
    · intro c2 hc2 hne2
      have hc2len : c2 < s.callers.length := by simpa using hc2
      by_cases hcc : c = c2 ∧ c < s.callers.length
      · have hgd : (s.callers.set c v).getD c2 default = v := by
          rw [getD_set_caller, if_pos hcc]
        rw [hgd]
        exact hvown
      · have hgd : (s.callers.set c v).getD c2 default =
            s.callers.getD c2 default := by
          rw [getD_set_caller, if_neg hcc]
        rw [hgd]
        exact huniq0 c2 hc2len hne2
    · have hgd : (s.callers.set c v).getD c0 default =
          s.callers.getD c0 default := by
        rw [getD_set_caller,
          if_neg (show ¬ (c = c0 ∧ c < s.callers.length) from fun hh => hne0 hh.1)]
      rw [hgd]
      exact hfet0

lemma inv_owner_update (s : CacheState) (hInv : TileInv s) (t0 : TileState)
    (htile : s.tile = some t0) (c : ℕ)
    (hcown : ownerish (s.callers.getD c default) = true)
    (v : CallerState) (hv : ownerish v = true) (t1 : TileState) (f1 : ℕ)
    (hf1 : f1 = if fetchDone v = true then 1 else 0) :
    TileInv ⟨some t1, f1, s.callers.set c v⟩ := by
  obtain ⟨_, hsome⟩ := hInv
  obtain ⟨c0, hlen0, hown0, huniq0, hfet0⟩ := hsome t0 htile
  have hclen : c < s.callers.length := by
    apply getD_lt_length
    intro hd
    rw [hd] at hcown
    exact absurd hcown (by decide)
  have hceq : c = c0 := by
    by_contra hne
    rw [huniq0 c hclen hne] at hcown
    exact absurd hcown (by decide)
  constructor
  · intro h; exact absurd h (by simp)
  · intro t ht
    refine ⟨c, by simpa using hclen, ?_, ?_, ?_⟩
    · have hgd : (s.callers.set c v).getD c default = v := by
        rw [getD_set_caller, if_pos ⟨rfl, hclen⟩]
      rw [hgd]
      exact hv
    · intro c2 hc2 hne2
      have hc2len : c2 < s.callers.length := by simpa using hc2
      have hgd : (s.callers.set c v).getD c2 default =
          s.callers.getD c2 default := by
        rw [getD_set_caller,
          if_neg (show ¬ (c = c2 ∧ c < s.callers.length) from
            fun hh => hne2 hh.1.symm)]
      rw [hgd]
      exact huniq0 c2 hc2len (by omega)
    · have hgd : (s.callers.set c v).getD c default = v := by
        rw [getD_set_caller, if_pos ⟨rfl, hclen⟩]
      rw [hgd]
      exact hf1

lemma step_inv (o : Bool) (s : CacheState) (c : ℕ) (h : TileInv s) :
    TileInv (step o s c) := by
  obtain ⟨hnone, hsome⟩ := h
  cases hcs : s.callers.getD c default with
  | start =>
    have hclen : c < s.callers.length :=
      getD_lt_length _ _ (by rw [hcs]; decide)
    rcases htile : s.tile with _ | t0
    · have hstep : step o s c =
          { s with tile := some .loading, callers := s.callers.set c .owner } := by
        rw [step, hcs, htile]; try rfl
      rw [hstep]
      obtain ⟨hf0, hall⟩ := hnone htile
      constructor
      · intro hcontra; exact absurd hcontra (by simp)
      · intro t ht
        refine ⟨c, by simpa using hclen, ?_, ?_, ?_⟩
        · have hgd : (s.callers.set c CallerState.owner).getD c default =
              CallerState.owner := by
            rw [getD_set_caller, if_pos ⟨rfl, hclen⟩]
          rw [hgd]
          rfl
        · intro c2 hc2 hne2
          have hc2len : c2 < s.callers.length := by simpa using hc2
          have hgd : (s.callers.set c CallerState.owner).getD c2 default =
              s.callers.getD c2 default := by
            rw [getD_set_caller,
              if_neg (show ¬ (c = c2 ∧ c < s.callers.length) from
                fun hh => hne2 hh.1.symm)]
          rw [hgd, hall _ (mem_of_getD _ _ hc2len)]
          rfl
        · have hgd : (s.callers.set c CallerState.owner).getD c default =
              CallerState.owner := by
            rw [getD_set_caller, if_pos ⟨rfl, hclen⟩]
          rw [hgd, hf0]
          rfl
    · have hstep : step o s c = { s with callers := s.callers.set c .waiter } := by
        rw [step, hcs, htile]; try rfl
      rw [hstep]
      exact inv_some_set s t0 htile ⟨hnone, hsome⟩ c .waiter (by decide)
        (by rw [hcs]; decide)
  | owner =>
    have hclen : c < s.callers.length :=
      getD_lt_length _ _ (by rw [hcs]; decide)
    obtain ⟨t0, htile⟩ : ∃ t0, s.tile = some t0 := by
      rcases ht : s.tile with _ | t0
      · obtain ⟨_, hall⟩ := hnone ht
        have h2 := hall _ (mem_of_getD _ _ hclen)
        rw [hcs] at h2
        exact absurd h2 (by decide)
      · exact ⟨t0, rfl⟩
    obtain ⟨c0, hlen0, hown0, huniq0, hfet0⟩ := hsome t0 htile
    have hceq : c = c0 := by
      by_contra hne
      have h2 := huniq0 c hclen hne
      rw [hcs] at h2
      exact absurd h2 (by decide)
    have hf0 : s.fetched = 0 := by
      rw [hfet0, ← hceq, hcs]
      rfl
    cases o with
    | true =>
      have hstep : step true s c = ⟨some .loaded, s.fetched + 1,
          s.callers.set c .ownerOk⟩ := by
        rw [step, hcs]; try rfl
      rw [hstep]
      exact inv_owner_update s ⟨hnone, hsome⟩ t0 htile c (by rw [hcs]; decide)
        .ownerOk (by decide) .loaded _ (by rw [hf0]; rfl)
    | false =>
      have hstep : step false s c = ⟨s.tile, s.fetched + 1,
          s.callers.set c .ownerErr⟩ := by
        rw [step, hcs]; try rfl
      rw [hstep, htile]
      exact inv_owner_update s ⟨hnone, hsome⟩ t0 htile c (by rw [hcs]; decide)
        .ownerErr (by decide) t0 _ (by rw [hf0]; rfl)
  | ownerOk =>
    have hclen : c < s.callers.length :=
      getD_lt_length _ _ (by rw [hcs]; decide)
    obtain ⟨t0, htile⟩ : ∃ t0, s.tile = some t0 := by
      rcases ht : s.tile with _ | t0
      · obtain ⟨_, hall⟩ := hnone ht
        have h2 := hall _ (mem_of_getD _ _ hclen)
        rw [hcs] at h2
        exact absurd h2 (by decide)
      · exact ⟨t0, rfl⟩
    obtain ⟨c0, hlen0, hown0, huniq0, hfet0⟩ := hsome t0 htile
    have hceq : c = c0 := by
      by_contra hne
      have h2 := huniq0 c hclen hne
      rw [hcs] at h2
      exact absurd h2 (by decide)
    have hf1 : s.fetched = 1 := by
      rw [hfet0, ← hceq, hcs]
      rfl
    have hstep : step o s c = ⟨s.tile, s.fetched,
        s.callers.set c (.done true true)⟩ := by
      rw [step, hcs]; try rfl
    rw [hstep, htile]
    exact inv_owner_update s ⟨hnone, hsome⟩ t0 htile c (by rw [hcs]; decide)
      (.done true true) (by decide) t0 _ (by rw [hf1]; rfl)
  | ownerErr =>
    have hclen : c < s.callers.length :=
      getD_lt_length _ _ (by rw [hcs]; decide)
    obtain ⟨t0, htile⟩ : ∃ t0, s.tile = some t0 := by
      rcases ht : s.tile with _ | t0
      · obtain ⟨_, hall⟩ := hnone ht
        have h2 := hall _ (mem_of_getD _ _ hclen)
        rw [hcs] at h2
        exact absurd h2 (by decide)
      · exact ⟨t0, rfl⟩
    obtain ⟨c0, hlen0, hown0, huniq0, hfet0⟩ := hsome t0 htile
    have hceq : c = c0 := by
      by_contra hne
      have h2 := huniq0 c hclen hne
      rw [hcs] at h2
      exact absurd h2 (by decide)
    have hf1 : s.fetched = 1 := by
      rw [hfet0, ← hceq, hcs]
      rfl
    have hstep : step o s c = ⟨some .failed, s.fetched,
        s.callers.set c (.done true false)⟩ := by
      rw [step, hcs]; try rfl
    rw [hstep]
    exact inv_owner_update s ⟨hnone, hsome⟩ t0 htile c (by rw [hcs]; decide)
      (.done true false) (by decide) .failed _ (by rw [hf1]; rfl)
  | waiter =>
    have hclen : c < s.callers.length :=
      getD_lt_length _ _ (by rw [hcs]; decide)
    rcases htile : s.tile with _ | t0
    · obtain ⟨_, hall⟩ := hnone htile
      have h2 := hall _ (mem_of_getD _ _ hclen)
      rw [hcs] at h2
      exact absurd h2 (by decide)
    · rcases t0 with _ | _ | _
      · have hstep : step o s c = s := by rw [step, hcs, htile]; try rfl
        rw [hstep]; exact ⟨hnone, hsome⟩
      · have hstep : step o s c =
            { s with callers := s.callers.set c (.done false true) } := by
          rw [step, hcs, htile]; try rfl
        rw [hstep]
        exact inv_some_set s _ htile ⟨hnone, hsome⟩ c _ (by decide)
          (by rw [hcs]; decide)
      · have hstep : step o s c =
            { s with callers := s.callers.set c (.done false true) } := by
          rw [step, hcs, htile]; try rfl
        rw [hstep]
        exact inv_some_set s _ htile ⟨hnone, hsome⟩ c _ (by decide)
          (by rw [hcs]; decide)
  | done b r =>
    have hstep : step o s c = s := by rw [step, hcs]; try rfl
    rw [hstep]
    exact ⟨hnone, hsome⟩

lemma initCache_inv (n : ℕ) : TileInv (initCache n) := by
  constructor
  · intro _
    exact ⟨rfl, fun cs hcs => List.eq_of_mem_replicate hcs⟩
  · intro t ht
    exact absurd ht (by simp [initCache])

lemma foldl_step_inv (o : Bool) :
    ∀ (sched : List ℕ) (s : CacheState), TileInv s →
      TileInv (sched.foldl (step o) s) := by
  intro sched
  induction sched with
  | nil => intro s h; exact h
  | cons c cs ih => intro s h; exact ih (step o s c) (step_inv o s c h)

lemma foldl_step_length (o : Bool) :
    ∀ (sched : List ℕ) (s : CacheState),
      (sched.foldl (step o) s).callers.length = s.callers.length := by
  intro sched
  induction sched with
  | nil => intro s; rfl
  | cons c cs ih => intro s; rw [List.foldl_cons, ih, step_length]

lemma runTile_inv (o : Bool) (n : ℕ) (sched : List ℕ) :
    TileInv (runTile o n sched) :=
  foldl_step_inv o sched (initCache n) (initCache_inv n)

lemma runTile_length (o : Bool) (n : ℕ) (sched : List ℕ) :
    (runTile o n sched).callers.length = n := by
  rw [runTile, foldl_step_length]
  simp [initCache]

/-- Claim C1 evaluated on the failing input (the claim is right, the code
is wrong in the failure half): dedup holds — at most one fetch is ever
performed for the key, and exactly one in every completed run — and on a
successful fetch every caller returns the same shared tile.  But when the
fetch fails, the callers do NOT all receive the same failed outcome: in the
concrete 2-caller schedule below the owner returns `nullptr` while the
waiter returns the shared tile object left in the `FAILED` state (the
discarded `WaitUntilDownloaded` result, tilemanager.cpp line 224). -/
theorem GetTile_single_fetch :
    (runTile false 2 [0, 1, 0, 0, 1] =
      ⟨some .failed, 1, [.done true false, .done false true]⟩ ∧
     CallerState.done true false ≠ CallerState.done false true) ∧
    (∀ (o : Bool) (n : ℕ) (sched : List ℕ),
      (runTile o n sched).fetched ≤ 1 ∧
      (CompletedRun (runTile o n sched) → 0 < n →
        (runTile o n sched).fetched = 1)) := by
  constructor
  · exact ⟨by decide, by decide⟩
  · intro o n sched
    have hinv := runTile_inv o n sched
    have hlen := runTile_length o n sched
    constructor
    · rcases htile : (runTile o n sched).tile with _ | t
      · have h0 := (hinv.1 htile).1
        omega
      · obtain ⟨c0, hc0, _, _, hfet⟩ := hinv.2 t htile
        rw [hfet]
        split <;> omega
    · intro hcomp hn
      rcases htile : (runTile o n sched).tile with _ | t
      · obtain ⟨_, hall⟩ := hinv.1 htile
        have h0len : 0 < (runTile o n sched).callers.length := by
          rw [hlen]; exact hn
        have hmem := mem_of_getD _ 0 h0len
        have hstart := hall _ hmem
        obtain ⟨b, r, hdone⟩ := hcomp _ hmem
        rw [hstart] at hdone
        exact absurd hdone (by simp)
      · obtain ⟨c0, hc0len, hown0, _, hfet0⟩ := hinv.2 t htile
        have hmem := mem_of_getD _ c0 hc0len
        obtain ⟨b, r, hdone⟩ := hcomp _ hmem
        rw [hfet0, hdone]
        rw [hdone] at hown0
        have hb : b = true := by simpa [ownerish] using hown0
        subst hb
        rfl

/-- Witness for C1: one caller, successful fetch, schedule running it to
completion — the run completes and exactly one fetch was performed. -/
theorem GetTile_single_fetch_witness :
    (runTile true 1 [0, 0, 0]).fetched = 1 :=
  (GetTile_single_fetch.2 true 1 [0, 0, 0]).2 (by decide) (by decide)

end GpsMap
